import Mathlib

/-!
# NFC helper routines of `esphome/components/nfc/nfc.cpp`

A shallow embedding of the tag classifier, the MIFARE Classic TLV decoder, the
buffer-size calculators and the sector/block arithmetic, followed by theorems
about them.

Conventions of the embedding.

* A `std::vector<uint8_t>` is a `List Byte` with `Byte = Fin 256`.
* `uint8_t` and `uint32_t` values are natural numbers; every place where the
  C++ code narrows to 8 or 32 bits is written as an explicit `% 256` or
  `% 2 ^ 32`.
* `v[i]` of a vector is unchecked in C++.  Code that indexes a vector runs in
  `Run`, which records every index handed to `operator[]` in program order and
  has no value once an index outside the vector was used (undefined behaviour
  in C++).
* Reference out-parameters are passed in and returned (state passing).
-/

namespace nfc

/-! ## Bytes, vectors and traced reads -/

/-- One `uint8_t` stored in a vector. -/
abbrev Byte := Fin 256

/-- Outcome of running vector-indexing code: `reads` lists the indices handed to
`operator[]`, in program order; `value` is the result, or `none` when an index
outside the vector was used (from there on the C++ behaviour is undefined). -/
structure Run (α : Type) where
  reads : List Nat
  value : Option α
deriving DecidableEq, Repr

namespace Run

/-- Finish with a value, reading nothing. -/
def ret {α : Type} (a : α) : Run α := ⟨[], some a⟩

/-- Sequencing: run `x`; when it produced a value continue with `f`, appending
the indices `f` reads; when it did not, stop. -/
def andThen {α β : Type} (x : Run α) (f : α → Run β) : Run β :=
  match x.value with
  | none => ⟨x.reads, none⟩
  | some a => ⟨x.reads ++ (f a).reads, (f a).value⟩

instance : Monad Run where
  pure := ret
  bind := andThen

end Run

/-- The expression `v[i]`: records the index `i` and yields the byte stored
there, as a number below 256; no value when `i` is not below `v.size()`. -/
def readByte (v : List Byte) (i : Nat) : Run Nat :=
  ⟨[i], (v[i]?).map Fin.val⟩

/-! ## Constants of `nfc.h` -/

/-- Modelled from the spec: the tag-type constants `TAG_TYPE_*` of `nfc.h`
(the header is not among the sources).  The spec gives them as a closed
enumeration of six distinct values: Unknown, MifareClassic, Type2, NTAG213,
NTAG215, NTAG216. -/
inductive TagType where
  | TAG_TYPE_UNKNOWN
  | TAG_TYPE_MIFARE_CLASSIC
  | TAG_TYPE_2
  | TAG_TYPE_NTAG_213
  | TAG_TYPE_NTAG_215
  | TAG_TYPE_NTAG_216
deriving DecidableEq, Repr

open TagType

/-- Modelled from the spec: `MIFARE_CLASSIC_BLOCK_SIZE` of `nfc.h`; the spec
gives the block size as 16 bytes. -/
def MIFARE_CLASSIC_BLOCK_SIZE : Nat := 16

/-- Modelled from the spec: `MIFARE_CLASSIC_LONG_TLV_SIZE` of `nfc.h`; the spec
gives the long-form header as 4 bytes. -/
def MIFARE_CLASSIC_LONG_TLV_SIZE : Nat := 4

/-- Modelled from the spec: `MIFARE_CLASSIC_SHORT_TLV_SIZE` of `nfc.h`; the spec
gives the short-form header as 2 bytes. -/
def MIFARE_CLASSIC_SHORT_TLV_SIZE : Nat := 2

/-- Modelled from the spec: `MIFARE_CLASSIC_BLOCKS_PER_SECT_LOW` of `nfc.h`; the
spec gives 4 blocks per small sector. -/
def MIFARE_CLASSIC_BLOCKS_PER_SECT_LOW : Nat := 4

/-- Modelled from the spec: `MIFARE_CLASSIC_BLOCKS_PER_SECT_HIGH` of `nfc.h`;
the spec gives 16 blocks per large sector. -/
def MIFARE_CLASSIC_BLOCKS_PER_SECT_HIGH : Nat := 16

/-- Modelled from the spec: `MIFARE_CLASSIC_16BLOCK_SECT_START` of `nfc.h`; the
spec gives 32 small sectors before the first large one. -/
def MIFARE_CLASSIC_16BLOCK_SECT_START : Nat := 32

/-- Modelled from the spec: `MIFARE_ULTRALIGHT_READ_SIZE` of `nfc.h`; the spec
gives the Ultralight read granularity as 4 bytes. -/
def MIFARE_ULTRALIGHT_READ_SIZE : Nat := 4

/-! ## Tag classification -/

/-- Embedding of `is_ntag` (nfc.cpp lines 34-50).  The condition is a chain of
short-circuit conjunctions, so `first_page[3]` is read only after the size
test succeeded, `first_page[4]` only after byte 3 matched, and `first_page[5]`
only after byte 4 matched. -/
def is_ntag (first_page : List Byte) : Run TagType :=
  if first_page.length ≥ 16 then do
    let b3 ← readByte first_page 3
    if b3 = 0xE1 then do
      let b4 ← readByte first_page 4
      if b4 = 0x10 then do
        let b5 ← readByte first_page 5
        if b5 = 0x11 then pure TAG_TYPE_NTAG_213
        else if b5 = 0x12 then pure TAG_TYPE_NTAG_215
        else if b5 = 0x13 then pure TAG_TYPE_NTAG_216
        else pure TAG_TYPE_UNKNOWN
      else pure TAG_TYPE_UNKNOWN
    else pure TAG_TYPE_UNKNOWN
  else pure TAG_TYPE_UNKNOWN

/-- Embedding of `guess_tag_type` (nfc.cpp lines 52-65); `uid_length` is the
`uint8_t` argument. -/
def guess_tag_type (uid_length : Nat) (first_page : List Byte) : Run TagType :=
  if uid_length = 4 then pure TAG_TYPE_MIFARE_CLASSIC
  else if uid_length = 7 then do
    let ntag_type ← is_ntag first_page
    if ntag_type ≠ TAG_TYPE_UNKNOWN then pure ntag_type
    else pure TAG_TYPE_2
  else pure TAG_TYPE_UNKNOWN

/-! ## MIFARE Classic TLV decoding -/

/-- The `for` loop of `get_mifare_classic_ndef_start_index` (nfc.cpp lines
68-77), entered with loop counter `i` and `remaining` iterations left before
the condition `i < MIFARE_CLASSIC_BLOCK_SIZE` fails.  The two `return`s of
negative literals from a function returning `uint8_t` are narrowed to 8 bits:
`-2` becomes `254` and `-1` becomes `255`. -/
def ndef_start_loop (data : List Byte) : Nat → Nat → Run Nat
  | 0, _ => pure (((-1 : Int) % 256).toNat)
  | remaining + 1, i => do
    let b ← readByte data i
    if b = 0x00 then ndef_start_loop data remaining (i + 1)
    else if b = 0x03 then pure i
    else pure (((-2 : Int) % 256).toNat)

/-- Embedding of `get_mifare_classic_ndef_start_index` (nfc.cpp lines 67-78):
the loop runs for `i = 0 .. MIFARE_CLASSIC_BLOCK_SIZE - 1`. -/
def get_mifare_classic_ndef_start_index (data : List Byte) : Run Nat :=
  ndef_start_loop data MIFARE_CLASSIC_BLOCK_SIZE 0

/-- Embedding of `decode_mifare_classic_tlv` (nfc.cpp lines 80-94).  The two
reference out-parameters are passed in and handed back next to the `bool`
result, in the order `(result, message_length, message_start_index)`; the early
`return false` leaves both as they were.  The index `i` is a `uint8_t`, the
index expressions `i + 1`, `i + 2`, `i + 3` are computed in `int` and do not
wrap; the stores to `message_length` (`uint32_t`) and `message_start_index`
(`uint8_t`) narrow. -/
def decode_mifare_classic_tlv (data : List Byte) (message_length message_start_index : Nat) :
    Run (Bool × Nat × Nat) := do
  let i ← get_mifare_classic_ndef_start_index data
  let tag ← readByte data i
  if tag ≠ 0x03 then
    pure (false, message_length, message_start_index)
  else do
    let len1 ← readByte data (i + 1)
    if len1 = 0xFF then do
      let hi ← readByte data (i + 2)
      let lo ← readByte data (i + 3)
      pure (true, (((0xFF &&& hi) <<< 8) ||| (0xFF &&& lo)) % 2 ^ 32,
        (i + MIFARE_CLASSIC_LONG_TLV_SIZE) % 256)
    else
      pure (true, len1 % 2 ^ 32, (i + MIFARE_CLASSIC_SHORT_TLV_SIZE) % 256)

/-! ## Buffer sizes -/

/-- Embedding of `get_mifare_ultralight_buffer_size` (nfc.cpp lines 96-101);
all arithmetic is `uint32_t`, hence modulo `2 ^ 32`. -/
def get_mifare_ultralight_buffer_size (message_length : Nat) : Nat :=
  let buffer_size := (message_length + 2 + 1) % 2 ^ 32
  if buffer_size % MIFARE_ULTRALIGHT_READ_SIZE ≠ 0 then
    ((buffer_size / MIFARE_ULTRALIGHT_READ_SIZE + 1) * MIFARE_ULTRALIGHT_READ_SIZE) % 2 ^ 32
  else buffer_size

/-- Embedding of `get_mifare_classic_buffer_size` (nfc.cpp lines 103-114); all
arithmetic is `uint32_t`, hence modulo `2 ^ 32`. -/
def get_mifare_classic_buffer_size (message_length : Nat) : Nat :=
  let buffer_size :=
    if message_length < 255 then
      (message_length + (MIFARE_CLASSIC_SHORT_TLV_SIZE + 1)) % 2 ^ 32
    else
      (message_length + (MIFARE_CLASSIC_LONG_TLV_SIZE + 1)) % 2 ^ 32
  if buffer_size % MIFARE_CLASSIC_BLOCK_SIZE ≠ 0 then
    ((buffer_size / MIFARE_CLASSIC_BLOCK_SIZE + 1) * MIFARE_CLASSIC_BLOCK_SIZE) % 2 ^ 32
  else buffer_size

/-! ## Sector and block arithmetic -/

/-- Embedding of `mifare_classic_is_first_block` (nfc.cpp lines 116-122);
`block_num` is a `uint8_t`, the comparison and the remainder are computed in
`int`. -/
def mifare_classic_is_first_block (block_num : Nat) : Bool :=
  if block_num < MIFARE_CLASSIC_BLOCKS_PER_SECT_LOW * MIFARE_CLASSIC_16BLOCK_SECT_START then
    block_num % MIFARE_CLASSIC_BLOCKS_PER_SECT_LOW == 0
  else
    block_num % MIFARE_CLASSIC_BLOCKS_PER_SECT_HIGH == 0

/-- Embedding of `mifare_classic_is_trailer_block` (nfc.cpp lines 124-130);
`block_num + 1` is computed in `int`, so it does not wrap at 255. -/
def mifare_classic_is_trailer_block (block_num : Nat) : Bool :=
  if block_num < MIFARE_CLASSIC_BLOCKS_PER_SECT_LOW * MIFARE_CLASSIC_16BLOCK_SECT_START then
    (block_num + 1) % MIFARE_CLASSIC_BLOCKS_PER_SECT_LOW == 0
  else
    (block_num + 1) % MIFARE_CLASSIC_BLOCKS_PER_SECT_HIGH == 0

/-! ## Predicates and concrete inputs used in the theorems -/

/-- Byte `b`, at offset `k`, is the first non-zero byte of `data`: every byte
before offset `k` is 0x00 and `data[k]` is `b`, which is not 0x00. -/
def FirstNonZero (data : List Byte) (k : Nat) (b : Byte) : Prop :=
  (∀ j, j < k → data[j]? = some 0) ∧ data[k]? = some b ∧ b ≠ 0

instance (data : List Byte) (k : Nat) (b : Byte) : Decidable (FirstNonZero data k b) := by
  unfold FirstNonZero
  infer_instance

/-- A 16-byte first page with `E1 10 99` at offsets 3..5: the NTAG signature
with an unrecognized variant byte. -/
def page_unrecognized_variant : List Byte :=
  [0x04, 0xA1, 0xB2, 0xE1, 0x10, 0x99, 0, 0, 0, 0, 0, 0, 0, 0, 0, 0]

/-- One MIFARE Classic block of 16 bytes, all 0x00. -/
def block_all_zero : List Byte := List.replicate 16 0

/-- A 256-byte data buffer whose first byte is 0x01 (so the first non-zero byte
is not the NDEF tag 0x03), with 0x03 at offset 254 and 0x05 at offset 255. -/
def buffer_tag_at_254 : List Byte := 1 :: List.replicate 253 0 ++ [3, 5]

/-- A 259-byte data buffer whose first 255 bytes are 0x00, followed by
`03 FF 01 02` at offsets 255..258. -/
def buffer_tag_at_255 : List Byte := List.replicate 255 0 ++ [3, 0xFF, 1, 2]

/-- Narrowing of a number to one `uint8_t`. -/
def toByte (n : Nat) : Byte := ⟨n % 256, Nat.mod_lt n (by decide)⟩

/-- Modelled from the spec: the TLV header written in front of an NDEF message of
length `L` (the code that writes a tag is not among the sources).  The spec
gives the encoding rule: the tag 0x03 followed by the single length byte in
short form, and the tag 0x03, the marker 0xFF and the 2-byte big-endian length
in long form; the form is chosen by the threshold the sizing uses,
`L < 255`. -/
def tlv_header (L : Nat) : List Byte :=
  if L < 255 then [0x03, toByte L]
  else [0x03, 0xFF, toByte (L / 256), toByte (L % 256)]

/-- One 16-byte block whose first non-zero byte is the tag 0x03 at offset 15,
the last byte of the block. -/
def block_tag_at_15 : List Byte := List.replicate 15 0 ++ [3]

/-- One 16-byte block whose first non-zero byte is the tag 0x03 at offset 13,
followed by the long-form marker 0xFF and one length byte. -/
def block_long_tag_at_13 : List Byte := List.replicate 13 0 ++ [3, 0xFF, 0x01]

/-! ## Helper lemmas on traced runs -/

theorem Run.bind_some {α β : Type} (r : List Nat) (a : α) (f : α → Run β) :
    ((⟨r, some a⟩ : Run α) >>= f) = ⟨r ++ (f a).reads, (f a).value⟩ := rfl

theorem Run.bind_none {α β : Type} (r : List Nat) (f : α → Run β) :
    ((⟨r, none⟩ : Run α) >>= f) = ⟨r, none⟩ := rfl

theorem Run.pure_eq {α : Type} (a : α) : (pure a : Run α) = ⟨[], some a⟩ := rfl

theorem readByte_some {v : List Byte} {i : Nat} {b : Byte} (h : v[i]? = some b) :
    readByte v i = ⟨[i], some b.val⟩ := by
  simp [readByte, h]

theorem readByte_none {v : List Byte} {i : Nat} (h : v.length ≤ i) :
    readByte v i = ⟨[i], none⟩ := by
  simp [readByte, List.getElem?_eq_none h]

/-- Below the size of the vector `v[i]` has a value. -/
theorem getElem?_of_lt (v : List Byte) {i : Nat} (h : i < v.length) :
    ∃ b : Byte, v[i]? = some b :=
  ⟨v[i], List.getElem?_eq_getElem h⟩

/-! ## Tag classification: theorems -/

/-- What `is_ntag` does on a page of at least 16 bytes carrying `0xE1 0x10` at
offsets 3 and 4: it reads indices 3, 4, 5 and selects on byte 5. -/
theorem is_ntag_signature (page : List Byte) (b5 : Byte)
    (h16 : 16 ≤ page.length) (h3 : page[3]? = some 0xE1) (h4 : page[4]? = some 0x10)
    (h5 : page[5]? = some b5) :
    is_ntag page = ⟨[3, 4, 5],
      some (if b5.val = 0x11 then TAG_TYPE_NTAG_213
        else if b5.val = 0x12 then TAG_TYPE_NTAG_215
        else if b5.val = 0x13 then TAG_TYPE_NTAG_216
        else TAG_TYPE_UNKNOWN)⟩ := by
  have h16' : page.length ≥ 16 := h16
  simp only [is_ntag, h16', if_true, readByte_some h3, readByte_some h4, readByte_some h5,
    Run.bind_some]
  have e3 : ((0xE1 : Byte).val = 0xE1) := rfl
  have e4 : ((0x10 : Byte).val = 0x10) := rfl
  simp only [e3, e4, if_true]
  split_ifs <;> rfl

/-- C1: for every first page of at least 16 bytes whose bytes at offsets 3 and 4
are 0xE1 and 0x10, `guess_tag_type 7 page` returns NTAG213 when the byte at
offset 5 is 0x11, NTAG215 when it is 0x12 and NTAG216 when it is 0x13, and
`is_ntag page` returns the same value. -/
theorem guess_tag_type_ntag_variants (page : List Byte)
    (h16 : 16 ≤ page.length) (h3 : page[3]? = some 0xE1) (h4 : page[4]? = some 0x10) :
    (page[5]? = some 0x11 →
        (guess_tag_type 7 page).value = some TAG_TYPE_NTAG_213 ∧
        (is_ntag page).value = some TAG_TYPE_NTAG_213) ∧
    (page[5]? = some 0x12 →
        (guess_tag_type 7 page).value = some TAG_TYPE_NTAG_215 ∧
        (is_ntag page).value = some TAG_TYPE_NTAG_215) ∧
    (page[5]? = some 0x13 →
        (guess_tag_type 7 page).value = some TAG_TYPE_NTAG_216 ∧
        (is_ntag page).value = some TAG_TYPE_NTAG_216) := by
  refine ⟨fun h5 => ?_, fun h5 => ?_, fun h5 => ?_⟩ <;>
    · have h := is_ntag_signature page _ h16 h3 h4 h5
      refine ⟨?_, by rw [h]; rfl⟩
      simp only [guess_tag_type, h]
      rfl

/-- Witness for C1: a 16-byte page with `E1 10 12` at offsets 3..5. -/
theorem guess_tag_type_ntag_variants_witness :
    (guess_tag_type 7 [0x04, 0xA1, 0xB2, 0xE1, 0x10, 0x12, 0, 0, 0, 0, 0, 0, 0, 0, 0, 0]).value
        = some TAG_TYPE_NTAG_215 ∧
    (is_ntag [0x04, 0xA1, 0xB2, 0xE1, 0x10, 0x12, 0, 0, 0, 0, 0, 0, 0, 0, 0, 0]).value
        = some TAG_TYPE_NTAG_215 :=
  (guess_tag_type_ntag_variants
    [0x04, 0xA1, 0xB2, 0xE1, 0x10, 0x12, 0, 0, 0, 0, 0, 0, 0, 0, 0, 0]
    (by decide) (by decide) (by decide)).2.1 (by decide)

/-- On a page of at least 16 bytes `is_ntag` is one of four runs, according to
how far the short-circuit condition gets. -/
theorem is_ntag_long_page (page : List Byte) (h16 : 16 ≤ page.length) :
    ∃ b3 b4 b5 : Byte, page[3]? = some b3 ∧ page[4]? = some b4 ∧ page[5]? = some b5 ∧
      is_ntag page =
        (if b3.val = 0xE1 then
          (if b4.val = 0x10 then
            ⟨[3, 4, 5],
              some (if b5.val = 0x11 then TAG_TYPE_NTAG_213
                else if b5.val = 0x12 then TAG_TYPE_NTAG_215
                else if b5.val = 0x13 then TAG_TYPE_NTAG_216
                else TAG_TYPE_UNKNOWN)⟩
          else ⟨[3, 4], some TAG_TYPE_UNKNOWN⟩)
        else ⟨[3], some TAG_TYPE_UNKNOWN⟩) := by
  obtain ⟨b3, h3⟩ := getElem?_of_lt page (show 3 < page.length by omega)
  obtain ⟨b4, h4⟩ := getElem?_of_lt page (show 4 < page.length by omega)
  obtain ⟨b5, h5⟩ := getElem?_of_lt page (show 5 < page.length by omega)
  refine ⟨b3, b4, b5, h3, h4, h5, ?_⟩
  have h16' : page.length ≥ 16 := h16
  simp only [is_ntag, h16', if_true, readByte_some h3, readByte_some h4, readByte_some h5,
    Run.bind_some]
  split_ifs <;> rfl

/-- On a page shorter than 16 bytes `is_ntag` answers Unknown without indexing
the page. -/
theorem is_ntag_short_page (page : List Byte) (h : page.length < 16) :
    is_ntag page = ⟨[], some TAG_TYPE_UNKNOWN⟩ := by
  have h' : ¬ page.length ≥ 16 := by omega
  simp only [is_ntag, h', if_false]
  rfl

/-- C2, counterexample: on a 16-byte page with `E1 10 99` at offsets 3..5 the
call `guess_tag_type 7 page` returns Type2, which is not Unknown. -/
theorem guess_tag_type_unrecognized_variant_counterexample :
    16 ≤ page_unrecognized_variant.length ∧
    page_unrecognized_variant[3]? = some 0xE1 ∧
    page_unrecognized_variant[4]? = some 0x10 ∧
    page_unrecognized_variant[5]? = some 0x99 ∧
    guess_tag_type 7 page_unrecognized_variant = ⟨[3, 4, 5], some TAG_TYPE_2⟩ ∧
    (guess_tag_type 7 page_unrecognized_variant).value ≠ some TAG_TYPE_UNKNOWN := by
  decide

/-- C2, amended: for every first page of at least 16 bytes whose bytes at
offsets 3 and 4 are 0xE1 and 0x10 and whose byte at offset 5 is none of 0x11,
0x12, 0x13, `is_ntag page` returns Unknown and `guess_tag_type 7 page` falls
back to Type2. -/
theorem guess_tag_type_unrecognized_variant (page : List Byte) (b5 : Byte)
    (h16 : 16 ≤ page.length) (h3 : page[3]? = some 0xE1) (h4 : page[4]? = some 0x10)
    (h5 : page[5]? = some b5) (n11 : b5 ≠ 0x11) (n12 : b5 ≠ 0x12) (n13 : b5 ≠ 0x13) :
    (is_ntag page).value = some TAG_TYPE_UNKNOWN ∧
    (guess_tag_type 7 page).value = some TAG_TYPE_2 := by
  have h := is_ntag_signature page b5 h16 h3 h4 h5
  have e11 : ¬ b5.val = 0x11 := fun e => n11 (Fin.ext e)
  have e12 : ¬ b5.val = 0x12 := fun e => n12 (Fin.ext e)
  have e13 : ¬ b5.val = 0x13 := fun e => n13 (Fin.ext e)
  simp only [e11, e12, e13, if_false] at h
  refine ⟨by rw [h], ?_⟩
  simp only [guess_tag_type, h]
  rfl

/-- Witness for the amended C2, at the page with `E1 10 99`. -/
theorem guess_tag_type_unrecognized_variant_witness :
    (is_ntag page_unrecognized_variant).value = some TAG_TYPE_UNKNOWN ∧
    (guess_tag_type 7 page_unrecognized_variant).value = some TAG_TYPE_2 :=
  guess_tag_type_unrecognized_variant page_unrecognized_variant 0x99
    (by decide) (by decide) (by decide) (by decide) (by decide) (by decide) (by decide)

/-- C3: for every first page that does not carry 0xE1 0x10 at offsets 3 and 4,
and for every page shorter than 16 bytes, `guess_tag_type 7 page` returns
Type2. -/
theorem guess_tag_type_no_signature (page : List Byte)
    (h : page.length < 16 ∨ page[3]? ≠ some 0xE1 ∨ page[4]? ≠ some 0x10) :
    (guess_tag_type 7 page).value = some TAG_TYPE_2 := by
  by_cases hlen : page.length < 16
  · simp only [guess_tag_type, is_ntag_short_page page hlen]
    rfl
  · obtain ⟨b3, b4, b5, h3, h4, _, hrun⟩ := is_ntag_long_page page (by omega)
    have hsig : ¬ (b3.val = 0xE1 ∧ b4.val = 0x10) := by
      rintro ⟨e3, e4⟩
      rcases h with h | h | h
      · exact hlen h
      · exact h (by rw [h3]; exact congrArg some (Fin.ext e3))
      · exact h (by rw [h4]; exact congrArg some (Fin.ext e4))
    have hntag : is_ntag page = ⟨[3, 4], some TAG_TYPE_UNKNOWN⟩ ∨
        is_ntag page = ⟨[3], some TAG_TYPE_UNKNOWN⟩ := by
      by_cases e3 : b3.val = 0xE1
      · have e4 : ¬ b4.val = 0x10 := fun e4 => hsig ⟨e3, e4⟩
        left
        rw [hrun, if_pos e3, if_neg e4]
      · right
        rw [hrun, if_neg e3]
    rcases hntag with e | e <;>
      · simp only [guess_tag_type, e]
        rfl

/-- Witness for C3: a 16-byte page with `E1 11` at offsets 3 and 4 (byte 4 does
not match), which even carries 0x12 at offset 5. -/
theorem guess_tag_type_no_signature_witness :
    (guess_tag_type 7 [0x04, 0xA1, 0xB2, 0xE1, 0x11, 0x12, 0, 0, 0, 0, 0, 0, 0, 0, 0, 0]).value
      = some TAG_TYPE_2 :=
  guess_tag_type_no_signature
    [0x04, 0xA1, 0xB2, 0xE1, 0x11, 0x12, 0, 0, 0, 0, 0, 0, 0, 0, 0, 0]
    (Or.inr (Or.inr (by decide)))

/-- C4: when the UID length is not 7 the result of `guess_tag_type` does not
depend on the page, and the page is not even indexed: for every page,
`guess_tag_type 4 page` returns MifareClassic, and for every 8-bit UID length
other than 4 and 7 it returns Unknown. -/
theorem guess_tag_type_page_independent (page : List Byte) :
    guess_tag_type 4 page = ⟨[], some TAG_TYPE_MIFARE_CLASSIC⟩ ∧
    ∀ uid_length : Nat, uid_length < 256 → uid_length ≠ 4 → uid_length ≠ 7 →
      guess_tag_type uid_length page = ⟨[], some TAG_TYPE_UNKNOWN⟩ := by
  refine ⟨rfl, fun n _ n4 n7 => ?_⟩
  simp only [guess_tag_type, n4, n7, if_false]
  rfl

/-- Witness for C4: the empty page, UID lengths 4 and 10. -/
theorem guess_tag_type_page_independent_witness :
    guess_tag_type 4 [] = ⟨[], some TAG_TYPE_MIFARE_CLASSIC⟩ ∧
    guess_tag_type 10 [] = ⟨[], some TAG_TYPE_UNKNOWN⟩ :=
  ⟨(guess_tag_type_page_independent []).1,
    (guess_tag_type_page_independent []).2 10 (by decide) (by decide) (by decide)⟩

/-- C5: on every first page shorter than 16 bytes `is_ntag` returns Unknown and
indexes the page nowhere; on every page of at least 16 bytes it returns a
value, and every index it reads is 3, 4 or 5 (all inside the page). -/
theorem is_ntag_reads (page : List Byte) :
    (page.length < 16 → is_ntag page = ⟨[], some TAG_TYPE_UNKNOWN⟩) ∧
    (16 ≤ page.length →
      (is_ntag page).value ≠ none ∧
      ∀ k ∈ (is_ntag page).reads, (k = 3 ∨ k = 4 ∨ k = 5) ∧ k < page.length) := by
  refine ⟨is_ntag_short_page page, fun h16 => ?_⟩
  obtain ⟨b3, b4, b5, -, -, -, hrun⟩ := is_ntag_long_page page h16
  rw [hrun]
  split_ifs <;>
    · refine ⟨by simp, fun k hk => ?_⟩
      simp only [List.mem_cons, List.mem_singleton, List.not_mem_nil, or_false] at hk
      exact ⟨by omega, by omega⟩

/-- Witness for C5: a 15-byte page that carries `E1 10 11` at offsets 3..5 is
not indexed at all; a 16-byte page whose byte 3 is not 0xE1 has every read
among 3, 4, 5. -/
theorem is_ntag_reads_witness :
    is_ntag [0, 0, 0, 0xE1, 0x10, 0x11, 0, 0, 0, 0, 0, 0, 0, 0, 0]
      = ⟨[], some TAG_TYPE_UNKNOWN⟩ ∧
    ((is_ntag [0, 0, 0, 0, 0, 0, 0, 0, 0, 0, 0, 0, 0, 0, 0, 0]).value ≠ none ∧
      ∀ k ∈ (is_ntag [0, 0, 0, 0, 0, 0, 0, 0, 0, 0, 0, 0, 0, 0, 0, 0]).reads,
        (k = 3 ∨ k = 4 ∨ k = 5) ∧
          k < ([0, 0, 0, 0, 0, 0, 0, 0, 0, 0, 0, 0, 0, 0, 0, 0] : List Byte).length) :=
  ⟨(is_ntag_reads [0, 0, 0, 0xE1, 0x10, 0x11, 0, 0, 0, 0, 0, 0, 0, 0, 0]).1 (by decide),
    (is_ntag_reads [0, 0, 0, 0, 0, 0, 0, 0, 0, 0, 0, 0, 0, 0, 0, 0]).2 (by decide)⟩

/-! ## TLV decoding: lemmas on the scan loop -/

/-- The scan started at counter `i` with `n` iterations left, when the first
non-zero byte from `i` on is `b` at distance `k < n`: it reads `i .. i + k` and
returns `i + k` when `b` is 0x03 and 254 otherwise. -/
theorem ndef_start_loop_nonzero (data : List Byte) (b : Byte) (hb : b ≠ 0) :
    ∀ (k n i : Nat), k < n → (∀ j, j < k → data[i + j]? = some 0) →
      data[i + k]? = some b →
      ndef_start_loop data n i =
        ⟨List.range' i (k + 1), some (if b.val = 3 then i + k else 254)⟩ := by
  have hb0 : ¬ b.val = 0 := fun e => hb (Fin.ext e)
  intro k
  induction k with
  | zero =>
    intro n i hn _ hk
    obtain ⟨m, rfl⟩ : ∃ m, n = m + 1 := ⟨n - 1, by omega⟩
    have hk' : data[i]? = some b := by simpa using hk
    simp only [ndef_start_loop, readByte_some hk', Run.bind_some, hb0, if_false]
    by_cases h3 : b.val = 3
    · simp only [h3, if_true]
      rfl
    · simp only [h3, if_false]
      rfl
  | succ k ih =>
    intro n i hn hz hk
    obtain ⟨m, rfl⟩ : ∃ m, n = m + 1 := ⟨n - 1, by omega⟩
    have h0 : data[i]? = some 0 := by simpa using hz 0 (by omega)
    have hrec := ih m (i + 1) (by omega)
      (fun j hj => by have := hz (j + 1) (by omega); rwa [show i + (j + 1) = i + 1 + j by omega] at this)
      (by rwa [show i + (k + 1) = i + 1 + k by omega] at hk)
    have e0 : ((0 : Byte).val = 0) := rfl
    simp only [ndef_start_loop, readByte_some h0, Run.bind_some, e0, if_true, hrec]
    rw [show i + 1 + k = i + (k + 1) by omega]
    rfl

/-- The scan started at counter `i` with `n` iterations left, when the `n`
bytes from `i` on are all 0x00: it reads all of them and returns 255. -/
theorem ndef_start_loop_all_zero (data : List Byte) :
    ∀ (n i : Nat), (∀ j, j < n → data[i + j]? = some 0) →
      ndef_start_loop data n i = ⟨List.range' i n, some 255⟩ := by
  intro n
  induction n with
  | zero =>
    intro i _
    rfl
  | succ m ih =>
    intro i hz
    have h0 : data[i]? = some 0 := by simpa using hz 0 (by omega)
    have hrec := ih (i + 1)
      (fun j hj => by have := hz (j + 1) (by omega); rwa [show i + (j + 1) = i + 1 + j by omega] at this)
    have e0 : ((0 : Byte).val = 0) := rfl
    simp only [ndef_start_loop, readByte_some h0, Run.bind_some, e0, if_true, hrec]
    rfl

/-- Among the first `n` bytes of a buffer of at least `n` bytes either all are
0x00 or there is a first non-zero one. -/
theorem all_zero_or_first_nonzero (data : List Byte) :
    ∀ n : Nat, n ≤ data.length →
      (∀ j, j < n → data[j]? = some 0) ∨ ∃ k b, k < n ∧ FirstNonZero data k b := by
  intro n
  induction n with
  | zero => exact fun _ => Or.inl (fun j hj => absurd hj (Nat.not_lt_zero j))
  | succ m ih =>
    intro hlen
    rcases ih (by omega) with hz | ⟨k, b, hk, hf⟩
    · obtain ⟨b, hb⟩ := getElem?_of_lt data (show m < data.length by omega)
      by_cases hb0 : b = 0
      · left
        intro j hj
        rcases Nat.lt_succ_iff_lt_or_eq.mp hj with h | h
        · exact hz j h
        · rw [h, hb, hb0]
      · exact Or.inr ⟨m, b, by omega, hz, hb, hb0⟩
    · exact Or.inr ⟨k, b, by omega, hf⟩

/-- The first non-zero byte of a buffer is unique. -/
theorem FirstNonZero.unique {data : List Byte} {k k2 : Nat} {b b2 : Byte}
    (h : FirstNonZero data k b) (h2 : FirstNonZero data k2 b2) : k = k2 ∧ b = b2 := by
  obtain ⟨hz, hk, hb⟩ := h
  obtain ⟨hz2, hk2, hb2⟩ := h2
  rcases Nat.lt_trichotomy k k2 with hlt | heq | hgt
  · have := hz2 k hlt
    rw [hk] at this
    exact absurd (Option.some.inj this) hb
  · subst heq
    rw [hk] at hk2
    exact ⟨rfl, Option.some.inj hk2⟩
  · have := hz k2 hgt
    rw [hk2] at this
    exact absurd (Option.some.inj this) hb2

/-- The start-index function on a buffer whose first non-zero byte is `b` at
offset `k < 16`. -/
theorem start_index_of_first_nonzero (data : List Byte) (k : Nat) (b : Byte)
    (hk : k < 16) (h : FirstNonZero data k b) :
    get_mifare_classic_ndef_start_index data =
      ⟨List.range (k + 1), some (if b.val = 3 then k else 254)⟩ := by
  obtain ⟨hz, hkb, hb⟩ := h
  have := ndef_start_loop_nonzero data b hb k 16 0 hk
    (fun j hj => by simpa using hz j hj) (by simpa using hkb)
  simp only [Nat.zero_add] at this
  rw [List.range_eq_range']
  exact this

/-- The start-index function on a buffer whose first 16 bytes are 0x00. -/
theorem start_index_of_all_zero (data : List Byte) (hz : ∀ j, j < 16 → data[j]? = some 0) :
    get_mifare_classic_ndef_start_index data = ⟨List.range 16, some 255⟩ := by
  have := ndef_start_loop_all_zero data 16 0 (fun j hj => by simpa using hz j hj)
  rw [List.range_eq_range']
  exact this

/-- The long-form length expression of the decoder is the big-endian value of
the two length bytes. -/
theorem long_length_eq (hi lo : Nat) (h1 : hi < 256) (h2 : lo < 256) :
    (((0xFF &&& hi) <<< 8) ||| (0xFF &&& lo)) % 2 ^ 32 = 256 * hi + lo := by
  have e1 : 0xFF &&& hi = hi := by
    rw [Nat.and_comm]
    exact (Nat.and_pow_two_sub_one_eq_mod hi 8).trans (Nat.mod_eq_of_lt h1)
  have e2 : 0xFF &&& lo = lo := by
    rw [Nat.and_comm]
    exact (Nat.and_pow_two_sub_one_eq_mod lo 8).trans (Nat.mod_eq_of_lt h2)
  have e3 : 2 ^ 8 * hi + lo = 2 ^ 8 * hi ||| lo :=
    Nat.mul_add_lt_is_or (by simpa using h2) hi
  rw [e1, e2, Nat.shiftLeft_eq, Nat.mul_comm hi, ← e3]
  omega

/-! ## TLV decoding: theorems -/

/-- C6: for every data buffer of at least 16 bytes,
`get_mifare_classic_ndef_start_index` returns `i < 16` exactly when bytes
`0 .. i-1` are 0x00 and byte `i` is 0x03; it returns 254 (the 8-bit wrap of -2)
exactly when the first non-zero byte among the first 16 is not 0x03, and 255
(the 8-bit wrap of -1) exactly when the first 16 bytes are all 0x00; it always
returns one of these, so the failure results are told apart from each other
and from every valid offset. -/
theorem get_mifare_classic_ndef_start_index_spec (data : List Byte)
    (h16 : 16 ≤ data.length) :
    (∀ i, i < 16 →
      ((get_mifare_classic_ndef_start_index data).value = some i ↔ FirstNonZero data i 3)) ∧
    ((get_mifare_classic_ndef_start_index data).value = some 254 ↔
      ∃ k b, k < 16 ∧ FirstNonZero data k b ∧ b ≠ 3) ∧
    ((get_mifare_classic_ndef_start_index data).value = some 255 ↔
      ∀ j, j < 16 → data[j]? = some 0) ∧
    (∃ r, (get_mifare_classic_ndef_start_index data).value = some r ∧
      (r < 16 ∨ r = 254 ∨ r = 255)) := by
  have h30 : (3 : Byte) ≠ 0 := by decide
  rcases all_zero_or_first_nonzero data 16 h16 with hz | ⟨k, b, hk, hf⟩
  · have hv : (get_mifare_classic_ndef_start_index data).value = some 255 := by
      rw [start_index_of_all_zero data hz]
    rw [hv]
    refine ⟨fun i hi => ⟨fun h => ?_, fun h => ?_⟩, ⟨fun h => ?_, fun h => ?_⟩,
      ⟨fun _ => hz, fun _ => rfl⟩, ⟨255, rfl, by omega⟩⟩
    · have := Option.some.inj h
      omega
    · have := hz i hi
      rw [h.2.1] at this
      exact absurd (Option.some.inj this) h30
    · have := Option.some.inj h
      omega
    · obtain ⟨k, b, hk, hf, _⟩ := h
      have := hz k hk
      rw [hf.2.1] at this
      exact absurd (Option.some.inj this) hf.2.2
  · have hv : (get_mifare_classic_ndef_start_index data).value
        = some (if b.val = 3 then k else 254) := by
      rw [start_index_of_first_nonzero data k b hk hf]
    have hnz : ¬ ∀ j, j < 16 → data[j]? = some 0 := by
      intro hz
      have := hz k hk
      rw [hf.2.1] at this
      exact hf.2.2 (Option.some.inj this)
    rw [hv]
    by_cases h3 : b = 3
    · subst h3
      have e3 : ((3 : Byte).val = 3) := rfl
      simp only [e3, if_true]
      refine ⟨fun i hi => ⟨fun h => ?_, fun h => ?_⟩, ⟨fun h => ?_, fun h => ?_⟩,
        ⟨fun h => ?_, fun h => absurd h hnz⟩, ⟨k, rfl, Or.inl hk⟩⟩
      · have := Option.some.inj h
        subst this
        exact hf
      · rw [(FirstNonZero.unique hf h).1]
      · have := Option.some.inj h
        omega
      · obtain ⟨k2, b2, _, hf2, hb2⟩ := h
        exact absurd (FirstNonZero.unique hf hf2).2.symm hb2
      · have := Option.some.inj h
        omega
    · have e3 : ¬ b.val = 3 := fun e => h3 (Fin.ext e)
      simp only [e3, if_false]
      refine ⟨fun i hi => ⟨fun h => ?_, fun h => ?_⟩,
        ⟨fun _ => ⟨k, b, hk, hf, h3⟩, fun _ => trivial⟩,
        ⟨fun h => ?_, fun h => absurd h hnz⟩, ⟨254, rfl, by omega⟩⟩
      · have := Option.some.inj h
        omega
      · exact absurd (FirstNonZero.unique hf h).2 h3
      · have := Option.some.inj h
        omega

/-- Witness for C6: on the all-zero block the result is 255 and no offset below
16 is returned. -/
theorem get_mifare_classic_ndef_start_index_spec_witness :
    (get_mifare_classic_ndef_start_index block_all_zero).value = some 255 ∧
    ∀ i, i < 16 → (get_mifare_classic_ndef_start_index block_all_zero).value ≠ some i :=
  ⟨(get_mifare_classic_ndef_start_index_spec block_all_zero (by decide)).2.2.1.mpr (by decide),
    fun i hi h =>
      absurd (((get_mifare_classic_ndef_start_index_spec block_all_zero (by decide)).1 i hi).mp
        h).2.1 (by
          have hz : ∀ j, j < 16 → block_all_zero[j]? = some 0 := by decide
          rw [hz i hi]
          decide)⟩

/-- C7: short form.  For every data buffer whose first non-zero byte is 0x03 at
an offset `i < 16`, with `data[i+1]` present and different from 0xFF,
`decode_mifare_classic_tlv` succeeds with `message_length = data[i+1]` (at most
254) and `message_start_index = i + 2`. -/
theorem decode_mifare_classic_tlv_short_form (data : List Byte)
    (message_length message_start_index i : Nat) (len1 : Byte)
    (hi : i < 16) (hf : FirstNonZero data i 3)
    (hl : data[i + 1]? = some len1) (hne : len1 ≠ 0xFF) :
    (decode_mifare_classic_tlv data message_length message_start_index).value
      = some (true, len1.val, i + 2) ∧ len1.val ≤ 254 := by
  have hidx := start_index_of_first_nonzero data i 3 hi hf
  have e3 : ((3 : Byte).val = 3) := rfl
  have hff : ¬ len1.val = 0xFF := fun e => hne (Fin.ext e)
  have hlt := len1.isLt
  simp only [e3, if_true] at hidx
  refine ⟨?_, by omega⟩
  simp only [decode_mifare_classic_tlv, hidx, Run.bind_some, readByte_some hf.2.1,
    readByte_some hl, e3, ne_eq, not_true_eq_false, if_false, hff,
    MIFARE_CLASSIC_SHORT_TLV_SIZE]
  rw [Nat.mod_eq_of_lt (show len1.val < 2 ^ 32 by omega),
    Nat.mod_eq_of_lt (show i + 2 < 256 by omega)]
  rfl

/-- Witness for C7: `00 00 03 05` followed by five payload bytes decodes to
length 5 and start index 4. -/
theorem decode_mifare_classic_tlv_short_form_witness :
    (decode_mifare_classic_tlv [0x00, 0x00, 0x03, 0x05, 0xD1, 0x01, 0x01, 0x54, 0x02] 0 0).value
      = some (true, 5, 4) :=
  (decode_mifare_classic_tlv_short_form [0x00, 0x00, 0x03, 0x05, 0xD1, 0x01, 0x01, 0x54, 0x02]
    0 0 2 0x05 (by decide) (by decide) (by decide) (by decide)).1

/-- C8: long form.  For every data buffer whose first non-zero byte is 0x03 at
an offset `i < 16`, with `data[i+1] = 0xFF` and `data[i+2]`, `data[i+3]`
present, `decode_mifare_classic_tlv` succeeds with
`message_length = 256 * data[i+2] + data[i+3]` (at most 65535) and
`message_start_index = i + 4`. -/
theorem decode_mifare_classic_tlv_long_form (data : List Byte)
    (message_length message_start_index i : Nat) (hi_byte lo_byte : Byte)
    (hi : i < 16) (hf : FirstNonZero data i 3)
    (hl : data[i + 1]? = some 0xFF)
    (h2 : data[i + 2]? = some hi_byte) (h3 : data[i + 3]? = some lo_byte) :
    (decode_mifare_classic_tlv data message_length message_start_index).value
      = some (true, 256 * hi_byte.val + lo_byte.val, i + 4) ∧
    256 * hi_byte.val + lo_byte.val ≤ 65535 := by
  have hidx := start_index_of_first_nonzero data i 3 hi hf
  have e3 : ((3 : Byte).val = 3) := rfl
  have eff : ((0xFF : Byte).val = 0xFF) := rfl
  have hlt1 := hi_byte.isLt
  have hlt2 := lo_byte.isLt
  simp only [e3, if_true] at hidx
  refine ⟨?_, by omega⟩
  simp only [decode_mifare_classic_tlv, hidx, Run.bind_some, readByte_some hf.2.1,
    readByte_some hl, readByte_some h2, readByte_some h3, e3, eff, ne_eq,
    not_true_eq_false, if_false, if_true, MIFARE_CLASSIC_LONG_TLV_SIZE]
  rw [long_length_eq hi_byte.val lo_byte.val hlt1 hlt2,
    Nat.mod_eq_of_lt (show i + 4 < 256 by omega)]
  rfl

/-- Witness for C8: a buffer starting `03 FF 01 00` decodes to length 256 and
start index 4. -/
theorem decode_mifare_classic_tlv_long_form_witness :
    (decode_mifare_classic_tlv [0x03, 0xFF, 0x01, 0x00, 0xD1, 0x01] 0 0).value
      = some (true, 256, 4) :=
  (decode_mifare_classic_tlv_long_form [0x03, 0xFF, 0x01, 0x00, 0xD1, 0x01]
    0 0 0 0x01 0x00 (by decide) (by decide) (by decide) (by decide) (by decide)).1

set_option maxRecDepth 100000 in
/-- C9, evaluated where the code departs from it.  Neither buffer has a valid
NDEF start index.  On the all-zero 16-byte block the start-index function
returns its sentinel 255, which the decoder uses as an index: it reads
`data[255]`, outside the 16-byte vector, and has no defined result.  On the
256-byte buffer whose first byte is 0x01 the sentinel is 254, the decoder
finds 0x03 at `data[254]` and reports success, overwriting the message length
with 5 and the start index with 0. -/
theorem decode_mifare_classic_tlv_sentinel_used_as_index :
    (16 ≤ block_all_zero.length ∧
      (∀ j, j < 16 → block_all_zero[j]? = some 0) ∧
      (get_mifare_classic_ndef_start_index block_all_zero).value = some 255 ∧
      decode_mifare_classic_tlv block_all_zero 1000 100 = ⟨List.range 16 ++ [255], none⟩) ∧
    (16 ≤ buffer_tag_at_254.length ∧
      FirstNonZero buffer_tag_at_254 0 1 ∧
      (get_mifare_classic_ndef_start_index buffer_tag_at_254).value = some 254 ∧
      decode_mifare_classic_tlv buffer_tag_at_254 1000 100
        = ⟨[0, 254, 255], some (true, 5, 0)⟩) := by
  decide

set_option maxRecDepth 100000 in
/-- C10, evaluated where the code departs from it.  The first 16 bytes of the
259-byte buffer are 0x00, so no offset `t < 16` holds the tag 0x03; the decoder
indexes the buffer with the sentinel 255, finds `03 FF 01 02` there and reports
success with `message_start_index = 3`, the 8-bit wrap of `255 + 4`. -/
theorem decode_mifare_classic_tlv_success_start_index_wraps :
    decode_mifare_classic_tlv buffer_tag_at_255 1000 100
      = ⟨List.range 16 ++ [255, 256, 257, 258], some (true, 258, 3)⟩ ∧
    (∀ t, t < 16 → ¬ FirstNonZero buffer_tag_at_255 t 3) ∧
    (255 + MIFARE_CLASSIC_LONG_TLV_SIZE) % 256 = 3 := by
  decide

/-! ## Buffer sizes: theorems -/

/-- Below `2 ^ 32 - 32` no step of `get_mifare_classic_buffer_size` wraps. -/
theorem classic_buffer_size_no_wrap (L : Nat) (h : L < 2 ^ 32 - 32) :
    get_mifare_classic_buffer_size L =
      (if L < 255 then (if (L + 3) % 16 ≠ 0 then ((L + 3) / 16 + 1) * 16 else L + 3)
       else (if (L + 5) % 16 ≠ 0 then ((L + 5) / 16 + 1) * 16 else L + 5)) := by
  have h2 : L < 4294967264 := by simpa using h
  simp only [get_mifare_classic_buffer_size, MIFARE_CLASSIC_SHORT_TLV_SIZE,
    MIFARE_CLASSIC_LONG_TLV_SIZE, MIFARE_CLASSIC_BLOCK_SIZE, Nat.reducePow, Nat.reduceAdd]
  split_ifs <;> omega

/-- Below `2 ^ 32 - 32` no step of `get_mifare_ultralight_buffer_size` wraps. -/
theorem ultralight_buffer_size_no_wrap (L : Nat) (h : L < 2 ^ 32 - 32) :
    get_mifare_ultralight_buffer_size L =
      (if (L + 3) % 4 ≠ 0 then ((L + 3) / 4 + 1) * 4 else L + 3) := by
  have h2 : L < 4294967264 := by simpa using h
  simp only [get_mifare_ultralight_buffer_size, MIFARE_ULTRALIGHT_READ_SIZE, Nat.reducePow]
  split_ifs <;> omega

/-- C11: for every message length `L < 2 ^ 32 - 32`,
`get_mifare_classic_buffer_size L` is the least multiple of 16 that is at least
`L + 3` when `L < 255` and at least `L + 5` when `L >= 255`; for `L = 1` it is
16. -/
theorem get_mifare_classic_buffer_size_least_multiple :
    (∀ L : Nat, L < 2 ^ 32 - 32 →
      16 ∣ get_mifare_classic_buffer_size L ∧
      (if L < 255 then L + 3 else L + 5) ≤ get_mifare_classic_buffer_size L ∧
      ∀ m : Nat, 16 ∣ m → (if L < 255 then L + 3 else L + 5) ≤ m →
        get_mifare_classic_buffer_size L ≤ m) ∧
    get_mifare_classic_buffer_size 1 = 16 := by
  refine ⟨fun L h => ?_, by decide⟩
  rw [classic_buffer_size_no_wrap L h]
  refine ⟨?_, ?_, ?_⟩
  · split_ifs <;> omega
  · split_ifs <;> omega
  · intro m hm
    split_ifs <;> omega

/-- Witness for C11, at `L = 300` (long form): the size is 320, the least
multiple of 16 from 305 on. -/
theorem get_mifare_classic_buffer_size_least_multiple_witness :
    16 ∣ get_mifare_classic_buffer_size 300 ∧
    (if 300 < 255 then 300 + 3 else 300 + 5) ≤ get_mifare_classic_buffer_size 300 ∧
    ∀ m : Nat, 16 ∣ m → (if 300 < 255 then 300 + 3 else 300 + 5) ≤ m →
      get_mifare_classic_buffer_size 300 ≤ m :=
  get_mifare_classic_buffer_size_least_multiple.1 300 (by decide)

/-- C12, counterexample: at the short/long threshold the sizes are not 32 and
48; `254 + 3 = 257` and `255 + 5 = 260` both round up to `17 * 16 = 272`. -/
theorem get_mifare_classic_buffer_size_threshold_counterexample :
    ¬ (get_mifare_classic_buffer_size 254 = 32 ∧ get_mifare_classic_buffer_size 255 = 48) := by
  decide

/-- C12, amended: at the short/long-form threshold
`get_mifare_classic_buffer_size 254 = 272` and
`get_mifare_classic_buffer_size 255 = 272`. -/
theorem get_mifare_classic_buffer_size_threshold :
    get_mifare_classic_buffer_size 254 = 272 ∧ get_mifare_classic_buffer_size 255 = 272 := by
  decide

/-- C13: for every message length `L < 2 ^ 32 - 32`,
`get_mifare_ultralight_buffer_size L` is the least multiple of 4 that is at
least `L + 3`; for `L = 1` it is 4 and for `L = 2` it is 8. -/
theorem get_mifare_ultralight_buffer_size_least_multiple :
    (∀ L : Nat, L < 2 ^ 32 - 32 →
      4 ∣ get_mifare_ultralight_buffer_size L ∧
      L + 3 ≤ get_mifare_ultralight_buffer_size L ∧
      ∀ m : Nat, 4 ∣ m → L + 3 ≤ m → get_mifare_ultralight_buffer_size L ≤ m) ∧
    get_mifare_ultralight_buffer_size 1 = 4 ∧
    get_mifare_ultralight_buffer_size 2 = 8 := by
  refine ⟨fun L h => ?_, by decide, by decide⟩
  rw [ultralight_buffer_size_no_wrap L h]
  refine ⟨?_, ?_, ?_⟩
  · split_ifs <;> omega
  · split_ifs <;> omega
  · intro m hm
    split_ifs <;> omega

/-- Witness for C13, at `L = 2`: the size is the least multiple of 4 from 5
on. -/
theorem get_mifare_ultralight_buffer_size_least_multiple_witness :
    4 ∣ get_mifare_ultralight_buffer_size 2 ∧
    2 + 3 ≤ get_mifare_ultralight_buffer_size 2 ∧
    ∀ m : Nat, 4 ∣ m → 2 + 3 ≤ m → get_mifare_ultralight_buffer_size 2 ≤ m :=
  get_mifare_ultralight_buffer_size_least_multiple.1 2 (by decide)

/-- C14, counterexample: for the largest 32-bit length the sum `L + 3` wraps to
2 and the function returns 4, far below `L + 3`. -/
theorem get_mifare_ultralight_buffer_size_lower_bound_counterexample :
    2 ^ 32 - 1 < 2 ^ 32 ∧
    get_mifare_ultralight_buffer_size (2 ^ 32 - 1) = 4 ∧
    ¬ (2 ^ 32 - 1 + 3 ≤ get_mifare_ultralight_buffer_size (2 ^ 32 - 1)) := by
  decide

/-- C14, amended: for every 32-bit unsigned message length `L`, the value
returned by `get_mifare_ultralight_buffer_size L` is at least `L + 3` exactly
when `L <= 2 ^ 32 - 7`; for the six larger lengths the 32-bit arithmetic wraps
and the result is at most 4. -/
theorem get_mifare_ultralight_buffer_size_lower_bound (L : Nat) (h : L < 2 ^ 32) :
    (L + 3 ≤ get_mifare_ultralight_buffer_size L ↔ L ≤ 2 ^ 32 - 7) ∧
    (2 ^ 32 - 7 < L → get_mifare_ultralight_buffer_size L ≤ 4) := by
  have h2 : L < 4294967296 := by simpa using h
  simp only [get_mifare_ultralight_buffer_size, MIFARE_ULTRALIGHT_READ_SIZE, Nat.reducePow,
    Nat.reduceSub]
  refine ⟨?_, ?_⟩
  · split_ifs <;> omega
  · split_ifs <;> omega

/-- Witness for the amended C14, at `L = 2 ^ 32 - 7`, the largest length for
which the bound holds. -/
theorem get_mifare_ultralight_buffer_size_lower_bound_witness :
    2 ^ 32 - 7 + 3 ≤ get_mifare_ultralight_buffer_size (2 ^ 32 - 7) :=
  (get_mifare_ultralight_buffer_size_lower_bound (2 ^ 32 - 7) (by decide)).1.mpr (by decide)

/-- C15: both buffer-size functions are monotonic on lengths below
`2 ^ 32 - 32`; in particular the classic size does not decrease from 254 to
255, where the overhead switches from 3 to 5 bytes. -/
theorem buffer_sizes_monotonic :
    (∀ L1 L2 : Nat, L1 ≤ L2 → L2 < 2 ^ 32 - 32 →
      get_mifare_classic_buffer_size L1 ≤ get_mifare_classic_buffer_size L2 ∧
      get_mifare_ultralight_buffer_size L1 ≤ get_mifare_ultralight_buffer_size L2) ∧
    get_mifare_classic_buffer_size 254 ≤ get_mifare_classic_buffer_size 255 := by
  refine ⟨fun L1 L2 h12 h2 => ?_, by decide⟩
  have h2n : L2 < 4294967264 := by simpa using h2
  have h1 : L1 < 2 ^ 32 - 32 := by
    have : L1 < 4294967264 := by omega
    simpa using this
  rw [classic_buffer_size_no_wrap L1 h1, classic_buffer_size_no_wrap L2 h2,
    ultralight_buffer_size_no_wrap L1 h1, ultralight_buffer_size_no_wrap L2 h2]
  refine ⟨?_, ?_⟩
  · split_ifs <;> omega
  · split_ifs <;> omega

/-- Witness for C15, across the threshold: lengths 200 and 300. -/
theorem buffer_sizes_monotonic_witness :
    get_mifare_classic_buffer_size 200 ≤ get_mifare_classic_buffer_size 300 ∧
    get_mifare_ultralight_buffer_size 200 ≤ get_mifare_ultralight_buffer_size 300 :=
  buffer_sizes_monotonic.1 200 300 (by decide) (by decide)

/-! ## Round trip between sizing and decoding -/

/-- Value of the decoder in short form, for a tag at offset `i < 16`. -/
theorem decode_value_short (data : List Byte) (ml ms i : Nat) (len1 : Byte)
    (hi : i < 16) (hf : FirstNonZero data i 3)
    (hl : data[i + 1]? = some len1) (hne : len1 ≠ 0xFF) :
    (decode_mifare_classic_tlv data ml ms).value = some (true, len1.val, i + 2) := by
  have hidx := start_index_of_first_nonzero data i 3 hi hf
  have e3 : ((3 : Byte).val = 3) := rfl
  have hff : ¬ len1.val = 0xFF := fun e => hne (Fin.ext e)
  have hlt := len1.isLt
  simp only [e3, if_true] at hidx
  simp only [decode_mifare_classic_tlv, hidx, Run.bind_some, readByte_some hf.2.1,
    readByte_some hl, e3, ne_eq, not_true_eq_false, if_false, hff,
    MIFARE_CLASSIC_SHORT_TLV_SIZE]
  rw [Nat.mod_eq_of_lt (show len1.val < 2 ^ 32 by omega),
    Nat.mod_eq_of_lt (show i + 2 < 256 by omega)]
  rfl

/-- Value of the decoder in long form, for a tag at offset `i < 16`. -/
theorem decode_value_long (data : List Byte) (ml ms i : Nat) (hi_byte lo_byte : Byte)
    (hi : i < 16) (hf : FirstNonZero data i 3)
    (hl : data[i + 1]? = some 0xFF)
    (h2 : data[i + 2]? = some hi_byte) (h3 : data[i + 3]? = some lo_byte) :
    (decode_mifare_classic_tlv data ml ms).value
      = some (true, 256 * hi_byte.val + lo_byte.val, i + 4) := by
  have hidx := start_index_of_first_nonzero data i 3 hi hf
  have e3 : ((3 : Byte).val = 3) := rfl
  have eff : ((0xFF : Byte).val = 0xFF) := rfl
  simp only [e3, if_true] at hidx
  simp only [decode_mifare_classic_tlv, hidx, Run.bind_some, readByte_some hf.2.1,
    readByte_some hl, readByte_some h2, readByte_some h3, e3, eff, ne_eq,
    not_true_eq_false, if_false, if_true, MIFARE_CLASSIC_LONG_TLV_SIZE]
  rw [long_length_eq hi_byte.val lo_byte.val hi_byte.isLt lo_byte.isLt,
    Nat.mod_eq_of_lt (show i + 4 < 256 by omega)]
  rfl

/-- C16: round trip between the sizing rule and the decoder.  For every message
length `L` from 0 to 65535 the TLV header, `L` payload bytes and one terminator
byte fit in `get_mifare_classic_buffer_size L` bytes; and on every buffer of
that size that starts with the header followed by `L` payload bytes,
`decode_mifare_classic_tlv` succeeds with `message_length = L` and
`message_start_index = 2` (short form) or `4` (long form). -/
theorem decode_mifare_classic_tlv_round_trip (L : Nat) (hL : L ≤ 65535) :
    (tlv_header L).length = (if L < 255 then 2 else 4) ∧
    (tlv_header L).length + L + 1 ≤ get_mifare_classic_buffer_size L ∧
    ∀ (payload padding : List Byte) (message_length message_start_index : Nat),
      payload.length = L →
      (tlv_header L ++ payload ++ padding).length = get_mifare_classic_buffer_size L →
      (decode_mifare_classic_tlv (tlv_header L ++ payload ++ padding)
          message_length message_start_index).value
        = some (true, L, if L < 255 then 2 else 4) := by
  have hsize := classic_buffer_size_no_wrap L (by
    have : L < 4294967264 := by omega
    simpa using this)
  have h30 : (3 : Byte) ≠ 0 := by decide
  by_cases hshort : L < 255
  · have hhdr : tlv_header L = [0x03, toByte L] := by simp only [tlv_header, hshort, if_true]
    refine ⟨by rw [hhdr, if_pos hshort]; rfl, ?_, ?_⟩
    · rw [hhdr, hsize, if_pos hshort]
      simp only [List.length_cons, List.length_nil]
      split_ifs <;> omega
    · intro payload padding ml ms _ _
      rw [hhdr, if_pos hshort]
      have hval : (toByte L).val = L := Nat.mod_eq_of_lt (by omega)
      have hne : toByte L ≠ 0xFF := by
        intro e
        have := congrArg Fin.val e
        rw [hval] at this
        have eff : ((0xFF : Byte).val = 255) := rfl
        omega
      have hdec := decode_value_short ([0x03, toByte L] ++ payload ++ padding) ml ms 0
        (toByte L) (by decide)
        ⟨fun j hj => absurd hj (Nat.not_lt_zero j), by simp, h30⟩ (by simp) hne
      rw [hdec, hval]
  · have hhdr : tlv_header L = [0x03, 0xFF, toByte (L / 256), toByte (L % 256)] := by
      simp only [tlv_header, hshort, if_false]
    refine ⟨by rw [hhdr, if_neg hshort]; rfl, ?_, ?_⟩
    · rw [hhdr, hsize, if_neg hshort]
      simp only [List.length_cons, List.length_nil]
      split_ifs <;> omega
    · intro payload padding ml ms _ _
      rw [hhdr, if_neg hshort]
      have hvhi : (toByte (L / 256)).val = L / 256 := Nat.mod_eq_of_lt (by omega)
      have hvlo : (toByte (L % 256)).val = L % 256 := Nat.mod_eq_of_lt (by omega)
      have hdec := decode_value_long
        ([0x03, 0xFF, toByte (L / 256), toByte (L % 256)] ++ payload ++ padding) ml ms 0
        (toByte (L / 256)) (toByte (L % 256)) (by decide)
        ⟨fun j hj => absurd hj (Nat.not_lt_zero j), by simp, h30⟩
        (by simp) (by simp) (by simp)
      rw [hdec, hvhi, hvlo]
      have : 256 * (L / 256) + L % 256 = L := Nat.div_add_mod L 256
      rw [this]

/-- Witness for C16, at `L = 5`: header `03 05`, five payload bytes, the
terminator 0xFE and eight bytes of padding fill one 16-byte block. -/
theorem decode_mifare_classic_tlv_round_trip_witness :
    (decode_mifare_classic_tlv
        (tlv_header 5 ++ [0xD1, 0x01, 0x01, 0x54, 0x02] ++ [0xFE, 0, 0, 0, 0, 0, 0, 0, 0])
        0 0).value
      = some (true, 5, if 5 < 255 then 2 else 4) :=
  (decode_mifare_classic_tlv_round_trip 5 (by decide)).2.2
    [0xD1, 0x01, 0x01, 0x54, 0x02] [0xFE, 0, 0, 0, 0, 0, 0, 0, 0] 0 0 (by decide) (by decide)

/-! ## Sector and block arithmetic: theorems -/

/-- The first-block test, with the constants of `nfc.h` filled in. -/
theorem is_first_block_eq (b : Nat) :
    mifare_classic_is_first_block b = (if b < 128 then b % 4 == 0 else b % 16 == 0) := rfl

/-- The trailer-block test, with the constants of `nfc.h` filled in. -/
theorem is_trailer_block_eq (b : Nat) :
    mifare_classic_is_trailer_block b
      = (if b < 128 then (b + 1) % 4 == 0 else (b + 1) % 16 == 0) := rfl

/-- C17: for every 8-bit block number `b`, `mifare_classic_is_first_block b` is
true exactly when `b mod 4 = 0` if `b < 128`, and exactly when `b mod 16 = 0`
if `b >= 128`; blocks 0, 4 and 128 are first blocks, 5 and 143 are not. -/
theorem mifare_classic_is_first_block_spec :
    (∀ b : Nat, b < 256 →
      (b < 128 → (mifare_classic_is_first_block b = true ↔ b % 4 = 0)) ∧
      (128 ≤ b → (mifare_classic_is_first_block b = true ↔ b % 16 = 0))) ∧
    mifare_classic_is_first_block 0 = true ∧
    mifare_classic_is_first_block 4 = true ∧
    mifare_classic_is_first_block 128 = true ∧
    mifare_classic_is_first_block 5 = false ∧
    mifare_classic_is_first_block 143 = false := by
  refine ⟨fun b _ => ⟨fun hlo => ?_, fun hhi => ?_⟩, rfl, rfl, rfl, rfl, rfl⟩
  · rw [is_first_block_eq, if_pos hlo, beq_iff_eq]
  · rw [is_first_block_eq, if_neg (by omega), beq_iff_eq]

/-- Witness for C17, at block 132 in the large-sector region: it is not a
first block, although `132 mod 4 = 0`. -/
theorem mifare_classic_is_first_block_spec_witness :
    (mifare_classic_is_first_block 132 = true ↔ 132 % 16 = 0) ∧
    (mifare_classic_is_first_block 124 = true ↔ 124 % 4 = 0) :=
  ⟨(mifare_classic_is_first_block_spec.1 132 (by decide)).2 (by decide),
    (mifare_classic_is_first_block_spec.1 124 (by decide)).1 (by decide)⟩

/-- C18: for every 8-bit block number `b`, 255 included,
`mifare_classic_is_trailer_block b` is true exactly when `(b + 1) mod 4 = 0`
if `b < 128`, and exactly when `(b + 1) mod 16 = 0` if `b >= 128`, with `b + 1`
not wrapped; block 143 is a trailer block, and so is block 255. -/
theorem mifare_classic_is_trailer_block_spec :
    (∀ b : Nat, b < 256 →
      (b < 128 → (mifare_classic_is_trailer_block b = true ↔ (b + 1) % 4 = 0)) ∧
      (128 ≤ b → (mifare_classic_is_trailer_block b = true ↔ (b + 1) % 16 = 0))) ∧
    mifare_classic_is_trailer_block 143 = true ∧
    mifare_classic_is_trailer_block 255 = true := by
  refine ⟨fun b _ => ⟨fun hlo => ?_, fun hhi => ?_⟩, rfl, rfl⟩
  · rw [is_trailer_block_eq, if_pos hlo, beq_iff_eq]
  · rw [is_trailer_block_eq, if_neg (by omega), beq_iff_eq]

/-- Witness for C18, at blocks 255 and 3. -/
theorem mifare_classic_is_trailer_block_spec_witness :
    (mifare_classic_is_trailer_block 255 = true ↔ (255 + 1) % 16 = 0) ∧
    (mifare_classic_is_trailer_block 3 = true ↔ (3 + 1) % 4 = 0) :=
  ⟨(mifare_classic_is_trailer_block_spec.1 255 (by decide)).2 (by decide),
    (mifare_classic_is_trailer_block_spec.1 3 (by decide)).1 (by decide)⟩

/-- C19: the two classifiers describe one sector partition, also across the
boundary at block 128: for every block number `b` from 0 to 254, `b` is a
trailer block if and only if `b + 1` is a first block; and no block number from
0 to 255 is both a first block and a trailer block. -/
theorem block_classifiers_consistent :
    (∀ b : Nat, b ≤ 254 →
      (mifare_classic_is_trailer_block b = true ↔
        mifare_classic_is_first_block (b + 1) = true)) ∧
    (∀ b : Nat, b ≤ 255 →
      ¬ (mifare_classic_is_first_block b = true ∧
        mifare_classic_is_trailer_block b = true)) := by
  refine ⟨fun b _ => ?_, fun b _ => ?_⟩
  · rw [is_trailer_block_eq, is_first_block_eq]
    split_ifs <;> simp only [beq_iff_eq] <;> omega
  · rw [is_trailer_block_eq, is_first_block_eq]
    split_ifs <;> simp only [beq_iff_eq] <;> omega

/-- Witness for C19, at the boundary: block 127 is a trailer block and block
128 is a first block, and block 128 is not a trailer block. -/
theorem block_classifiers_consistent_witness :
    (mifare_classic_is_trailer_block 127 = true ↔
      mifare_classic_is_first_block (127 + 1) = true) ∧
    ¬ (mifare_classic_is_first_block 128 = true ∧
      mifare_classic_is_trailer_block 128 = true) :=
  ⟨block_classifiers_consistent.1 127 (by decide),
    block_classifiers_consistent.2 128 (by decide)⟩

/-! ## Bounds of the decoder on one block -/

/-- C20, evaluated where the code departs from it.  Both inputs are one block of
16 bytes whose first non-zero byte among the first 16 is the tag 0x03.  With
the tag at offset 15 the decoder reads the length byte at index 16, outside
the vector; with the tag at offset 13 followed by 0xFF and one more byte it
reads indices 14 and 15 and then index 16, outside the vector.  Neither run
has a defined result. -/
theorem decode_mifare_classic_tlv_reads_past_block :
    (block_tag_at_15.length = 16 ∧
      FirstNonZero block_tag_at_15 15 3 ∧
      decode_mifare_classic_tlv block_tag_at_15 1000 100
        = ⟨List.range 16 ++ [15, 16], none⟩ ∧
      ¬ (∀ k ∈ (decode_mifare_classic_tlv block_tag_at_15 1000 100).reads,
          k < block_tag_at_15.length)) ∧
    (block_long_tag_at_13.length = 16 ∧
      FirstNonZero block_long_tag_at_13 13 3 ∧
      decode_mifare_classic_tlv block_long_tag_at_13 1000 100
        = ⟨List.range 14 ++ [13, 14, 15, 16], none⟩ ∧
      ¬ (∀ k ∈ (decode_mifare_classic_tlv block_long_tag_at_13 1000 100).reads,
          k < block_long_tag_at_13.length)) := by
  decide

end nfc
